import Mathlib

/-
Verification model of the cache engine in src/caching.py.

Modelling conventions:
- Text (Python str) is a list of Unicode codepoints (List Nat).
- Time (time.time()) is a rational number; within a single request the clock
  is modelled as constant, so every call to time.time() during one request
  returns the same value, passed in as the parameter now.  The millisecond
  latency field of the HTTP responses is a wall-clock measurement and is not
  modelled.
- Python dict / OrderedDict are association lists in insertion order; the
  first element is the oldest key (next(iter(d))), new keys are appended at
  the end, and assignment to an existing key updates the value in place
  without moving the key (OrderedDict semantics).
- Floating point arithmetic is modelled by exact rationals.
- The md5 content hash (exact_key) is modelled by an injective stand-in:
  the normalized text itself.  The spec treats the hash as a deterministic
  identity function with negligible collisions, and no claim depends on the
  concrete digest.
- The sentence-transformer embedding model is an external collaborator; it
  is passed in as a function encode from text to vectors of rationals.
-/

set_option maxHeartbeats 1000000

namespace Caching

abbrev Key := List Nat

/-! ### Normalizer: normalize(text) = " ".join(text.lower().strip().split()) -/

/-- Python str.lower restricted to the ASCII letters: uppercase codepoints
65..90 are shifted by 32, everything else is unchanged. -/
def lowerChar (c : Nat) : Nat := if 65 ≤ c ∧ c ≤ 90 then c + 32 else c

/-- The ASCII whitespace characters recognized by Python str.split() and
str.strip() with no arguments: space, tab, newline, carriage return,
vertical tab, form feed. -/
def isSpaceB (c : Nat) : Bool :=
  c == 32 || c == 9 || c == 10 || c == 13 || c == 11 || c == 12

/-- One character step of str.split() with no arguments, processed from the
right: the accumulator is the word currently being built plus the list of
finished words. -/
def splitStep (c : Nat) (p : List Nat × List (List Nat)) : List Nat × List (List Nat) :=
  if isSpaceB c then (if p.1.isEmpty then ([], p.2) else ([], p.1 :: p.2))
  else (c :: p.1, p.2)

/-- Close the pending word of a split accumulator. -/
def flushSplit (p : List Nat × List (List Nat)) : List (List Nat) :=
  if p.1.isEmpty then p.2 else p.1 :: p.2

/-- Python str.split() with no arguments: split on runs of whitespace,
discarding empty tokens. -/
def pySplit (l : List Nat) : List (List Nat) :=
  flushSplit (l.foldr splitStep ([], []))

/-- Python str.strip() with no arguments: drop leading and trailing
whitespace. -/
def pyStrip (l : List Nat) : List Nat :=
  ((l.dropWhile isSpaceB).reverse.dropWhile isSpaceB).reverse

/-- Tail part of " ".join: a space before each further word. -/
def joinSpAux : List (List Nat) → List Nat
  | [] => []
  | w :: ws => 32 :: (w ++ joinSpAux ws)

/-- Python " ".join(words). -/
def joinSp : List (List Nat) → List Nat
  | [] => []
  | w :: ws => w ++ joinSpAux ws

/-- normalize from line 44: " ".join(text.lower().strip().split()). -/
def normalize (s : List Nat) : List Nat :=
  joinSp (pySplit (pyStrip (s.map lowerChar)))

/-- exact_key from line 47: the md5 hex digest of the normalized text,
modelled by the injective stand-in of the normalized text itself. -/
def exact_key (q : List Nat) : Key := normalize q

/-! ### Cosine similarity -/

/-- np.dot on rational vectors. -/
def dotQ (a b : List ℚ) : ℚ := (List.zipWith (fun x y => x * y) a b).sum

/-- Squared euclidean norm: the square of np.linalg.norm. -/
def normSq (a : List ℚ) : ℚ := dotQ a a

/-- The comparison cosine_sim(a, b) > 0.95 from lines 50-51 and 112, encoded
over the rationals without square roots: for nonzero norms the real
inequality dot/(norm a * norm b) > 19/20 holds exactly when the dot product
is positive and its square exceeds (19/20)^2 times the product of the
squared norms (theorem cosSimGT_iff_real below).  When either norm is zero
the numpy float division yields NaN, and NaN > 0.95 is false, so the entry
is treated as no match; that case is encoded as false. -/
def cosSimGT (a b : List ℚ) : Bool :=
  decide (normSq a ≠ 0) && decide (normSq b ≠ 0) && decide (0 < dotQ a b) &&
    decide ((19 / 20 : ℚ) ^ 2 * (normSq a * normSq b) < dotQ a b ^ 2)

/-! ### Configuration constants, lines 15-18.
The spec (section 6) presents these module constants as the configuration
surface, so the model takes them as a parameter record whose default values
are the literals of the source. -/

structure Config where
  CACHE_SIZE : Nat := 2000
  TTL_SECONDS : ℚ := 86400
  MODEL_COST : ℚ := 1 / 1000000
  AVG_TOKENS : Nat := 3000
deriving DecidableEq

/-- The configuration actually written in the source. -/
def defaultConfig : Config := {}

/-! ### Global state, lines 24-34 -/

structure Stats where
  total_requests : Nat
  hits : Nat
  misses : Nat
  total_tokens : Nat
deriving DecidableEq

structure SState where
  cache : List (Key × List Nat)
  cache_embeddings : List (Key × List ℚ)
  cache_timestamps : List (Key × ℚ)
  stats : Stats
deriving DecidableEq

/-- The state at process start: empty dicts, zero counters. -/
def initState : SState :=
  { cache := [], cache_embeddings := [], cache_timestamps := [],
    stats := ⟨0, 0, 0, 0⟩ }

/-! ### Dict operations -/

/-- Lookup in an association list, first binding wins (dict access). -/
def lookupK {α : Type} (k : Key) : List (Key × α) → Option α
  | [] => none
  | p :: rest => if p.1 = k then some p.2 else lookupK k rest

/-- dict assignment d[k] = v: an existing key keeps its position and gets the
new value, a new key is appended at the most recent end (OrderedDict
insertion-order semantics). -/
def odSet {α : Type} (l : List (Key × α)) (k : Key) (v : α) : List (Key × α) :=
  if (lookupK k l).isSome then l.map (fun p => if p.1 = k then (k, v) else p)
  else l ++ [(k, v)]

/-- dict.pop(k, None): remove the binding of k if present. -/
def eraseK {α : Type} (l : List (Key × α)) (k : Key) : List (Key × α) :=
  l.filter (fun p => decide (p.1 ≠ k))

/-- is_cache_valid from lines 53-54: the key has a timestamp and
now - timestamp < TTL_SECONDS. -/
def is_cache_valid (cfg : Config) (now : ℚ) (ts : List (Key × ℚ)) (k : Key) : Bool :=
  match lookupK k ts with
  | some t => decide (now - t < cfg.TTL_SECONDS)
  | none => false

/-- The exact-match hit condition of line 99:
key in cache and is_cache_valid(key). -/
def exactHit (cfg : Config) (now : ℚ) (st : SState) (key : Key) : Bool :=
  (lookupK key st.cache).isSome && is_cache_valid cfg now st.cache_timestamps key

/-- The eviction loop of lines 134-138: while len(cache) > CACHE_SIZE, pop
the oldest key (the head of the insertion-ordered cache) from the cache, the
embeddings and the timestamps. -/
def evictLoop (n : Nat) :
    List (Key × List Nat) → List (Key × List ℚ) → List (Key × ℚ) →
    List (Key × List Nat) × List (Key × List ℚ) × List (Key × ℚ)
  | [], e, t => ([], e, t)
  | p :: c, e, t =>
    if (p :: c).length ≤ n then (p :: c, e, t)
    else evictLoop n c (eraseK e p.1) (eraseK t p.1)

/-- The simulated backend answer of line 124, the codepoints of
the text Summarized <quote>{query}<quote> (used {AVG_TOKENS} tokens). -/
def answerText (cfg : Config) (query : List Nat) : List Nat :=
  [83, 117, 109, 109, 97, 114, 105, 122, 101, 100, 32, 39] ++ query ++
    [39, 32, 40, 117, 115, 101, 100, 32] ++
    ((Nat.toDigits 10 cfg.AVG_TOKENS).map Char.toNat) ++
    [32, 116, 111, 107, 101, 110, 115, 41]

structure Response where
  answer : List Nat
  cached : Bool
  cacheKey : Key
deriving DecidableEq

/-- handle_query, lines 89-146.  The whole body runs under the single global
lock; the lock itself is modelled separately by the event trace
missPathEvents, while this function gives the sequential state transformer
the critical section computes.  On the two hit paths the answer dict access
cache[k] is modelled with an empty-text default; the store invariants keep
the three dicts on the same key set so the default is never exercised. -/
def handle_query (cfg : Config) (encode : List Nat → List ℚ) (now : ℚ)
    (query : List Nat) (st : SState) : Response × SState :=
  let key := exact_key query
  let norm := normalize query
  let stats1 : Stats := { st.stats with total_requests := st.stats.total_requests + 1 }
  if exactHit cfg now st key then
    ({ answer := (lookupK key st.cache).getD [], cached := true, cacheKey := key },
      { st with stats := { stats1 with hits := stats1.hits + 1 } })
  else
    let emb := encode norm
    match st.cache_embeddings.find?
        (fun p => is_cache_valid cfg now st.cache_timestamps p.1 && cosSimGT emb p.2) with
    | some p =>
      ({ answer := (lookupK p.1 st.cache).getD [], cached := true, cacheKey := p.1 },
        { st with stats := { stats1 with hits := stats1.hits + 1 } })
    | none =>
      let answer := answerText cfg query
      let stats2 : Stats := { stats1 with
        misses := stats1.misses + 1
        total_tokens := stats1.total_tokens + cfg.AVG_TOKENS }
      let c := odSet st.cache key answer
      let e := odSet st.cache_embeddings key emb
      let t := odSet st.cache_timestamps key now
      let r := evictLoop cfg.CACHE_SIZE c e t
      ({ answer := answer, cached := false, cacheKey := key },
        { cache := r.1, cache_embeddings := r.2.1, cache_timestamps := r.2.2,
          stats := stats2 })

/-- The cacheKey label of the degenerate probe response, lines 77-82: the
codepoints of the word probe. -/
def probeKey : Key := [112, 114, 111, 98, 101]

/-- The POST branch of the root endpoint, lines 72-84: a missing or empty
query text short-circuits to an empty uncached answer without touching any
state; otherwise the request is handled by handle_query. -/
def root (cfg : Config) (encode : List Nat → List ℚ) (now : ℚ)
    (q : Option (List Nat)) (st : SState) : Response × SState :=
  match q with
  | none => ({ answer := [], cached := false, cacheKey := probeKey }, st)
  | some s =>
    if s = [] then ({ answer := [], cached := false, cacheKey := probeKey }, st)
    else handle_query cfg encode now s st

/-! ### Analytics, lines 151-174 -/

/-- Floor of a rational. -/
def floorQ (q : ℚ) : ℤ := ⌊q⌋

/-- Python round(x) on a rational value: round half to even. -/
def roundHalfEven (q : ℚ) : ℤ :=
  let f := floorQ q
  if q - f < 1 / 2 then f
  else if (1 / 2 : ℚ) < q - f then f + 1
  else if f % 2 = 0 then f else f + 1

/-- Python round(x, n): round to n decimal digits, half to even. -/
def roundTo (n : Nat) (q : ℚ) : ℚ :=
  (roundHalfEven (q * 10 ^ n) : ℚ) / 10 ^ n

structure AnalyticsReport where
  hitRate : ℚ
  totalRequests : Nat
  cacheHits : Nat
  cacheMisses : Nat
  cacheSize : Nat
  costSavings : ℚ
  savingsPercent : ℤ
deriving DecidableEq

/-- The analytics endpoint, lines 151-174: derived metrics computed on read
under the lock. -/
def analytics (cfg : Config) (st : SState) : AnalyticsReport :=
  let total := st.stats.total_requests
  let hits := st.stats.hits
  let hit_rate : ℚ := (hits : ℚ) / max 1 (total : ℚ)
  let cost_saved : ℚ := (hits : ℚ) * (cfg.AVG_TOKENS : ℚ) * cfg.MODEL_COST
  { hitRate := roundTo 3 hit_rate,
    totalRequests := total,
    cacheHits := hits,
    cacheMisses := st.stats.misses,
    cacheSize := st.cache.length,
    costSavings := roundTo 2 cost_saved,
    savingsPercent := roundHalfEven (hit_rate * 100) }

/-! ### Lock structure of the handler.
The state transformer above abstracts from the lock; the claim about where
the backend call sits relative to the lock is about the static control flow
of lines 95-146, which is recorded here as the sequence of events the miss
path performs. -/

inductive LockEvent
  | acquire
  | statsTotal
  | exactCheck
  | semanticScan
  | backendCall
  | statsMiss
  | insertEntry
  | evict
  | release
deriving DecidableEq

/-- The events of the miss path of handle_query in source order: the with
lock statement of line 95 acquires the lock before anything else and
releases it when the block exits at line 146, after the response is built;
in between come the counter update of line 96, the exact check of line 99,
the semantic scan of lines 110-120, the simulated backend call of lines
123-124, the miss counters of lines 126-127, the insertion of lines 129-131
and the eviction loop of lines 134-138. -/
def missPathEvents : List LockEvent :=
  [.acquire, .statsTotal, .exactCheck, .semanticScan, .backendCall,
   .statsMiss, .insertEntry, .evict, .release]

/-- Net number of lock acquisitions in a trace prefix. -/
def lockDepth (tr : List LockEvent) : ℤ :=
  (tr.count .acquire : ℤ) - (tr.count .release : ℤ)

/-! ### Concrete test fixtures used by witnesses and counterexamples -/

/-- An embedding collaborator returning the empty vector: its norm is zero,
so the semantic strategy never matches and scenarios exercise the exact
path in isolation. -/
def zeroEmbed : List Nat → List ℚ := fun _ => []

/-- The source configuration with the capacity shrunk to two entries, to
exercise the eviction loop on tiny scenarios. -/
def cfgTwo : Config := { CACHE_SIZE := 2 }

/-- The source configuration with the capacity shrunk to one entry. -/
def cfgOne : Config := { CACHE_SIZE := 1 }

/-- State after inserting the one-letter query a at time 0 into the empty
cache with capacity two. -/
def fifoSt1 : SState := (handle_query cfgTwo zeroEmbed 0 [97] initState).2

/-- State after additionally inserting the query b. -/
def fifoSt2 : SState := (handle_query cfgTwo zeroEmbed 0 [98] fifoSt1).2

/-- The read of the query a performed after both insertions: per the spec it
must promote a to the most-recently-used position. -/
def fifoRead : Response × SState := handle_query cfgTwo zeroEmbed 0 [97] fifoSt2

/-- State after the overflow insertion of the query c following the read. -/
def fifoSt3 : SState := (handle_query cfgTwo zeroEmbed 0 [99] fifoRead.2).2

/-- The stats snapshot of spec section 8: 10 requests, 3 hits. -/
def statsTen : SState :=
  { cache := [], cache_embeddings := [], cache_timestamps := [],
    stats := ⟨10, 3, 7, 21000⟩ }

/-! ## Lemmas about the normalizer -/

lemma lowerChar_idem (c : Nat) : lowerChar (lowerChar c) = lowerChar c := by
  unfold lowerChar
  by_cases h : 65 ≤ c ∧ c ≤ 90
  · rw [if_pos h, if_neg (by omega)]
  · rw [if_neg h, if_neg h]

lemma isSpaceB_lowerChar (c : Nat) : isSpaceB (lowerChar c) = isSpaceB c := by
  rw [Bool.eq_iff_iff]
  simp only [isSpaceB, Bool.or_eq_true, beq_iff_eq, lowerChar]
  split <;> omega

lemma flushSplit_nil (acc : List (List Nat)) : flushSplit ([], acc) = acc := rfl

lemma splitStep_space {c : Nat} (hc : isSpaceB c = true) (p : List Nat × List (List Nat)) :
    splitStep c p = ([], flushSplit p) := by
  simp only [splitStep, flushSplit, hc, if_true]
  split <;> rfl

lemma splitStep_nonspace {c : Nat} (hc : isSpaceB c = false) (p : List Nat × List (List Nat)) :
    splitStep c p = (c :: p.1, p.2) := by
  simp [splitStep, hc]

lemma foldr_splitStep_wsfree (w : List Nat) (hw : ∀ c ∈ w, isSpaceB c = false)
    (p : List Nat × List (List Nat)) : w.foldr splitStep p = (w ++ p.1, p.2) := by
  induction w with
  | nil => simp
  | cons c w ih =>
    rw [List.foldr_cons, ih (fun d hd => hw d (List.mem_cons_of_mem _ hd)),
      splitStep_nonspace (hw c (List.mem_cons_self _ _))]
    simp

lemma foldr_splitStep_allWS (r : List Nat) (hr : ∀ c ∈ r, isSpaceB c = true) (hne : r ≠ [])
    (p : List Nat × List (List Nat)) : r.foldr splitStep p = ([], flushSplit p) := by
  induction r with
  | nil => exact absurd rfl hne
  | cons c r ih =>
    rw [List.foldr_cons]
    by_cases h : r = []
    · subst h
      exact splitStep_space (hr c (List.mem_cons_self _ _)) p
    · rw [ih (fun d hd => hr d (List.mem_cons_of_mem _ hd)) h,
        splitStep_space (hr c (List.mem_cons_self _ _)), flushSplit_nil]

lemma foldr_allWS_init (v : List Nat) (hv : ∀ c ∈ v, isSpaceB c = true) :
    v.foldr splitStep (([] : List Nat), ([] : List (List Nat))) = ([], []) := by
  by_cases h : v = []
  · subst h; rfl
  · rw [foldr_splitStep_allWS v hv h, flushSplit_nil]

lemma foldr_joinSpAux (ws : List (List Nat))
    (h : ∀ w ∈ ws, w ≠ [] ∧ ∀ c ∈ w, isSpaceB c = false) :
    (joinSpAux ws).foldr splitStep (([] : List Nat), ([] : List (List Nat))) = ([], ws) := by
  induction ws with
  | nil => rfl
  | cons w ws ih =>
    show (32 :: (w ++ joinSpAux ws)).foldr splitStep ([], []) = ([], w :: ws)
    rw [List.foldr_cons, List.foldr_append,
      ih (fun u hu => h u (List.mem_cons_of_mem _ hu)),
      foldr_splitStep_wsfree w (h w (List.mem_cons_self _ _)).2,
      splitStep_space (by rfl)]
    have hw : w ≠ [] := (h w (List.mem_cons_self _ _)).1
    simp [flushSplit, hw]

lemma pySplit_joinSp (w : List Nat) (ws : List (List Nat)) (hw : w ≠ [])
    (hw2 : ∀ c ∈ w, isSpaceB c = false)
    (h : ∀ u ∈ ws, u ≠ [] ∧ ∀ c ∈ u, isSpaceB c = false) :
    pySplit (joinSp (w :: ws)) = w :: ws := by
  show flushSplit ((w ++ joinSpAux ws).foldr splitStep ([], [])) = w :: ws
  rw [List.foldr_append, foldr_joinSpAux ws h, foldr_splitStep_wsfree w hw2]
  simp [flushSplit, hw]

lemma splitRun_sound (l : List Nat) :
    (∀ c ∈ (l.foldr splitStep (([] : List Nat), ([] : List (List Nat)))).1,
      isSpaceB c = false ∧ c ∈ l) ∧
    (∀ w ∈ (l.foldr splitStep (([] : List Nat), ([] : List (List Nat)))).2,
      w ≠ [] ∧ ∀ c ∈ w, isSpaceB c = false ∧ c ∈ l) := by
  induction l with
  | nil => simp
  | cons a l ih =>
    obtain ⟨ih1, ih2⟩ := ih
    rw [List.foldr_cons]
    cases ha : isSpaceB a with
    | true =>
      rw [splitStep_space ha]
      refine ⟨by simp, ?_⟩
      intro w hw
      unfold flushSplit at hw
      split at hw
      · obtain ⟨h1, h2⟩ := ih2 w hw
        exact ⟨h1, fun c hc => ⟨(h2 c hc).1, List.mem_cons_of_mem _ (h2 c hc).2⟩⟩
      · rename_i hne
        rcases List.mem_cons.mp hw with rfl | hw'
        · refine ⟨by simpa [List.isEmpty_iff] using hne, fun c hc => ?_⟩
          exact ⟨(ih1 c hc).1, List.mem_cons_of_mem _ (ih1 c hc).2⟩
        · obtain ⟨h1, h2⟩ := ih2 w hw'
          exact ⟨h1, fun c hc => ⟨(h2 c hc).1, List.mem_cons_of_mem _ (h2 c hc).2⟩⟩
    | false =>
      rw [splitStep_nonspace ha]
      refine ⟨?_, ?_⟩
      · intro c hc
        rcases List.mem_cons.mp hc with rfl | hc'
        · exact ⟨ha, (List.mem_cons_self _ _)⟩
        · exact ⟨(ih1 c hc').1, List.mem_cons_of_mem _ (ih1 c hc').2⟩
      · intro w hw
        obtain ⟨h1, h2⟩ := ih2 w hw
        exact ⟨h1, fun c hc => ⟨(h2 c hc).1, List.mem_cons_of_mem _ (h2 c hc).2⟩⟩

lemma pySplit_sound (l : List Nat) (w : List Nat) (hw : w ∈ pySplit l) :
    w ≠ [] ∧ ∀ c ∈ w, isSpaceB c = false ∧ c ∈ l := by
  unfold pySplit flushSplit at hw
  obtain ⟨s1, s2⟩ := splitRun_sound l
  split at hw
  · exact s2 w hw
  · rename_i hne
    rcases List.mem_cons.mp hw with rfl | hw'
    · exact ⟨by simpa [List.isEmpty_iff] using hne, fun c hc => s1 c hc⟩
    · exact s2 w hw'

lemma pySplit_append_ws_left (u m : List Nat) (hu : ∀ c ∈ u, isSpaceB c = true) :
    pySplit (u ++ m) = pySplit m := by
  by_cases h : u = []
  · subst h; rfl
  · unfold pySplit
    rw [List.foldr_append, foldr_splitStep_allWS u hu h, flushSplit_nil]

lemma pySplit_append_ws_right (m v : List Nat) (hv : ∀ c ∈ v, isSpaceB c = true) :
    pySplit (m ++ v) = pySplit m := by
  unfold pySplit
  rw [List.foldr_append, foldr_allWS_init v hv]

lemma pySplit_pyStrip (l : List Nat) : pySplit (pyStrip l) = pySplit l := by
  unfold pyStrip
  have h1 : pySplit l = pySplit (l.dropWhile isSpaceB) := by
    conv_lhs => rw [← List.takeWhile_append_dropWhile (p := isSpaceB) (l := l)]
    exact pySplit_append_ws_left _ _ (fun c hc => List.mem_takeWhile_imp hc)
  have h2 : pySplit (((l.dropWhile isSpaceB).reverse.dropWhile isSpaceB).reverse) =
      pySplit (l.dropWhile isSpaceB) := by
    set m := l.dropWhile isSpaceB with hm
    have key : (m.reverse.dropWhile isSpaceB).reverse ++
        (m.reverse.takeWhile isSpaceB).reverse = m := by
      rw [← List.reverse_append, List.takeWhile_append_dropWhile, List.reverse_reverse]
    calc pySplit ((m.reverse.dropWhile isSpaceB).reverse)
        = pySplit ((m.reverse.dropWhile isSpaceB).reverse ++
            (m.reverse.takeWhile isSpaceB).reverse) := by
          refine (pySplit_append_ws_right _ _ (fun c hc => ?_)).symm
          exact List.mem_takeWhile_imp (List.mem_reverse.mp hc)
      _ = pySplit m := by rw [key]
  rw [h2, ← h1]

lemma normalize_core (s : List Nat) :
    normalize s = joinSp (pySplit (s.map lowerChar)) := by
  unfold normalize
  rw [pySplit_pyStrip]

lemma mem_joinSpAux (ws : List (List Nat)) (c : Nat) (h : c ∈ joinSpAux ws) :
    c = 32 ∨ ∃ w ∈ ws, c ∈ w := by
  induction ws with
  | nil => simp [joinSpAux] at h
  | cons w ws ih =>
    simp only [joinSpAux, List.mem_cons, List.mem_append] at h
    rcases h with rfl | h | h
    · exact Or.inl rfl
    · exact Or.inr ⟨w, (List.mem_cons_self _ _), h⟩
    · rcases ih h with h' | ⟨u, hu, hcu⟩
      · exact Or.inl h'
      · exact Or.inr ⟨u, List.mem_cons_of_mem _ hu, hcu⟩

lemma mem_joinSp (ws : List (List Nat)) (c : Nat) (h : c ∈ joinSp ws) :
    c = 32 ∨ ∃ w ∈ ws, c ∈ w := by
  cases ws with
  | nil => simp [joinSp] at h
  | cons w ws =>
    rcases List.mem_append.mp h with h' | h'
    · exact Or.inr ⟨w, (List.mem_cons_self _ _), h'⟩
    · rcases mem_joinSpAux ws c h' with h'' | ⟨u, hu, hcu⟩
      · exact Or.inl h''
      · exact Or.inr ⟨u, List.mem_cons_of_mem _ hu, hcu⟩

lemma map_eq_self {f : Nat → Nat} {l : List Nat} (h : ∀ c ∈ l, f c = c) : l.map f = l := by
  induction l with
  | nil => rfl
  | cons a l ih =>
    rw [List.map_cons, h a (List.mem_cons_self _ _), ih (fun c hc => h c (List.mem_cons_of_mem _ hc))]

lemma normalize_idem (s : List Nat) : normalize (normalize s) = normalize s := by
  have hsound : ∀ w ∈ pySplit (s.map lowerChar),
      w ≠ [] ∧ ∀ c ∈ w, isSpaceB c = false ∧ c ∈ s.map lowerChar :=
    fun w hw => pySplit_sound _ w hw
  have hlower : ∀ c ∈ joinSp (pySplit (s.map lowerChar)), lowerChar c = c := by
    intro c hc
    rcases mem_joinSp _ c hc with rfl | ⟨w, hw, hcw⟩
    · decide
    · obtain ⟨x, -, rfl⟩ := List.mem_map.mp ((hsound w hw).2 c hcw).2
      exact lowerChar_idem x
  calc normalize (normalize s)
      = joinSp (pySplit ((normalize s).map lowerChar)) := normalize_core _
    _ = joinSp (pySplit (normalize s)) := by
        rw [normalize_core s, map_eq_self hlower]
    _ = normalize s := by
        rw [normalize_core s]
        cases hws : pySplit (s.map lowerChar) with
        | nil => rfl
        | cons w ws =>
          have h1 := hsound w (hws ▸ (List.mem_cons_self _ _))
          rw [pySplit_joinSp w ws h1.1 (fun c hc => (h1.2 c hc).1)
            (fun u hu => by
              have h2 := hsound u (hws ▸ List.mem_cons_of_mem _ hu)
              exact ⟨h2.1, fun c hc => (h2.2 c hc).1⟩)]

lemma normalize_map_congr (s t : List Nat) (h : s.map lowerChar = t.map lowerChar) :
    normalize s = normalize t := by
  unfold normalize
  rw [h]

lemma map_lowerChar_allWS {u : List Nat} (hu : ∀ c ∈ u, isSpaceB c = true) :
    ∀ c ∈ u.map lowerChar, isSpaceB c = true := by
  intro c hc
  obtain ⟨x, hx, rfl⟩ := List.mem_map.mp hc
  rw [isSpaceB_lowerChar]
  exact hu x hx

lemma normalize_pad (u s v : List Nat) (hu : ∀ c ∈ u, isSpaceB c = true)
    (hv : ∀ c ∈ v, isSpaceB c = true) : normalize (u ++ s ++ v) = normalize s := by
  rw [normalize_core, normalize_core s, List.map_append, List.map_append,
    pySplit_append_ws_right _ _ (map_lowerChar_allWS hv),
    pySplit_append_ws_left _ _ (map_lowerChar_allWS hu)]

lemma normalize_run (a r r' b : List Nat) (hr : ∀ c ∈ r, isSpaceB c = true)
    (hr' : ∀ c ∈ r', isSpaceB c = true) (hne : r ≠ []) (hne' : r' ≠ []) :
    normalize (a ++ r ++ b) = normalize (a ++ r' ++ b) := by
  rw [normalize_core, normalize_core, List.map_append, List.map_append,
    List.map_append, List.map_append]
  unfold pySplit
  rw [List.foldr_append, List.foldr_append, List.foldr_append, List.foldr_append,
    foldr_splitStep_allWS (r.map lowerChar) (map_lowerChar_allWS hr)
      (by simpa using hne),
    foldr_splitStep_allWS (r'.map lowerChar) (map_lowerChar_allWS hr')
      (by simpa using hne')]

/-- C8: normalization is idempotent, and two texts that differ only in
letter case, in leading and trailing whitespace, or in the composition of a
nonempty internal whitespace run (spaces, tabs, newlines) have the same
normal form. -/
theorem C8_normalize_canonical :
    (∀ s, normalize (normalize s) = normalize s)
    ∧ (∀ s t, s.map lowerChar = t.map lowerChar → normalize s = normalize t)
    ∧ (∀ u s v, (∀ c ∈ u, isSpaceB c = true) → (∀ c ∈ v, isSpaceB c = true) →
        normalize (u ++ s ++ v) = normalize s)
    ∧ (∀ a r r' b, (∀ c ∈ r, isSpaceB c = true) → (∀ c ∈ r', isSpaceB c = true) →
        r ≠ [] → r' ≠ [] → normalize (a ++ r ++ b) = normalize (a ++ r' ++ b)) :=
  ⟨normalize_idem, normalize_map_congr,
    fun u s v hu hv => normalize_pad u s v hu hv,
    fun a r r' b hr hr' hne hne' => normalize_run a r r' b hr hr' hne hne'⟩

/-- Witness for C8: the texts a SPACE SPACE TAB b and a NEWLINE b normalize
to the same result, by the internal-run part of the theorem. -/
theorem C8_normalize_canonical_witness :
    normalize ([97] ++ [32, 32, 9] ++ [98]) = normalize ([97] ++ [10] ++ [98]) :=
  C8_normalize_canonical.2.2.2 [97] [32, 32, 9] [10] [98]
    (by decide) (by decide) (by decide) (by decide)

/-! ## Lemmas about cosine similarity -/

lemma zipWith_mul_self (a : List ℚ) :
    List.zipWith (fun x y => x * y) a a = a.map (fun x => x * x) := by
  induction a with
  | nil => rfl
  | cons x a ih => simp [ih]

lemma normSq_nonneg (a : List ℚ) : 0 ≤ normSq a := by
  unfold normSq dotQ
  rw [zipWith_mul_self]
  refine List.sum_nonneg ?_
  intro x hx
  obtain ⟨y, -, rfl⟩ := List.mem_map.mp hx
  exact mul_self_nonneg y

/-- The rational encoding of the threshold test agrees with the real-number
cosine similarity: cosSimGT a b holds exactly when
dot(a,b) / (norm(a) * norm(b)) > 0.95 over the reals.  With a zero norm the
right side is the junk value 0 of division by zero, which fails the test,
matching the NaN behaviour of the float code. -/
theorem cosSimGT_iff_real (a b : List ℚ) :
    cosSimGT a b = true ↔
      (19 / 20 : ℝ) <
        (dotQ a b : ℝ) / (Real.sqrt ((normSq a : ℚ) : ℝ) * Real.sqrt ((normSq b : ℚ) : ℝ)) := by
  by_cases ha : normSq a = 0
  · simp only [cosSimGT, ha]
    norm_num [Real.sqrt_zero]
  · by_cases hb : normSq b = 0
    · simp only [cosSimGT, hb]
      norm_num [Real.sqrt_zero]
    · have ha' : (0 : ℝ) < ((normSq a : ℚ) : ℝ) := by
        exact_mod_cast lt_of_le_of_ne (normSq_nonneg a) (Ne.symm ha)
      have hb' : (0 : ℝ) < ((normSq b : ℚ) : ℝ) := by
        exact_mod_cast lt_of_le_of_ne (normSq_nonneg b) (Ne.symm hb)
      have hsa : 0 < Real.sqrt ((normSq a : ℚ) : ℝ) := Real.sqrt_pos.mpr ha'
      have hsb : 0 < Real.sqrt ((normSq b : ℚ) : ℝ) := Real.sqrt_pos.mpr hb'
      have hsq : (Real.sqrt ((normSq a : ℚ) : ℝ) * Real.sqrt ((normSq b : ℚ) : ℝ)) ^ 2 =
          ((normSq a : ℚ) : ℝ) * ((normSq b : ℚ) : ℝ) := by
        rw [mul_pow, Real.sq_sqrt ha'.le, Real.sq_sqrt hb'.le]
      have hL : (cosSimGT a b = true) ↔
          (0 < dotQ a b ∧ (19 / 20 : ℚ) ^ 2 * (normSq a * normSq b) < dotQ a b ^ 2) := by
        simp [cosSimGT, ha, hb]
      rw [hL, lt_div_iff₀ (by positivity)]
      constructor
      · rintro ⟨hd, hlt⟩
        have hd' : (0 : ℝ) < (dotQ a b : ℝ) := by exact_mod_cast hd
        have hltR : (((19 / 20 : ℚ) ^ 2 * (normSq a * normSq b) : ℚ) : ℝ) <
            ((dotQ a b ^ 2 : ℚ) : ℝ) := by exact_mod_cast hlt
        push_cast at hltR
        have hkey : ((19 / 20 : ℝ) * (Real.sqrt ((normSq a : ℚ) : ℝ) *
            Real.sqrt ((normSq b : ℚ) : ℝ))) ^ 2 < ((dotQ a b : ℚ) : ℝ) ^ 2 := by
          rw [mul_pow, hsq]
          convert hltR using 2
        exact lt_of_pow_lt_pow_left₀ 2 hd'.le hkey
      · intro h
        have hpos : (0 : ℝ) < (19 / 20 : ℝ) * (Real.sqrt ((normSq a : ℚ) : ℝ) *
            Real.sqrt ((normSq b : ℚ) : ℝ)) := by positivity
        have hd' : (0 : ℝ) < (dotQ a b : ℝ) := lt_trans hpos h
        have hd : (0 : ℚ) < dotQ a b := by exact_mod_cast hd'
        refine ⟨hd, ?_⟩
        have hsqlt : ((19 / 20 : ℝ) * (Real.sqrt ((normSq a : ℚ) : ℝ) *
            Real.sqrt ((normSq b : ℚ) : ℝ))) ^ 2 < ((dotQ a b : ℚ) : ℝ) ^ 2 :=
          pow_lt_pow_left₀ h hpos.le (by norm_num)
        rw [mul_pow, hsq] at hsqlt
        have hsqlt' : (((19 / 20 : ℚ) ^ 2 * (normSq a * normSq b) : ℚ) : ℝ) <
            ((dotQ a b ^ 2 : ℚ) : ℝ) := by
          push_cast
          convert hsqlt using 2
        exact_mod_cast hsqlt'

/-- A successful find? returns the first element satisfying the predicate:
it occurs at some position, it satisfies the predicate, and everything at an
earlier position fails the predicate. -/
lemma find?_first {α : Type} (p : α → Bool) (l : List α) (x : α)
    (h : l.find? p = some x) :
    ∃ i : Nat, l[i]? = some x ∧ p x = true ∧
      ∀ j : Nat, j < i → ∀ y, l[j]? = some y → p y = false := by
  induction l with
  | nil => simp at h
  | cons a l ih =>
    by_cases hpa : p a = true
    · rw [List.find?_cons_of_pos _ hpa] at h
      obtain rfl : a = x := Option.some.inj h
      exact ⟨0, by simp, hpa, fun j hj => absurd hj (Nat.not_lt_zero j)⟩
    · have hpa' : p a = false := Bool.eq_false_iff.mpr hpa
      rw [List.find?_cons_of_neg _ hpa] at h
      obtain ⟨i, h1, h2, h3⟩ := ih h
      refine ⟨i + 1, by simpa using h1, h2, ?_⟩
      intro j hj y hy
      cases j with
      | zero =>
        obtain rfl : a = y := Option.some.inj (by simpa using hy)
        exact hpa'
      | succ k => exact h3 k (Nat.lt_of_succ_lt_succ hj) y (by simpa using hy)

/-- C3: the semantic strategy runs only when the exact match fails (on an
exact hit the result does not depend on the embedding collaborator at all);
the rational threshold test agrees with the real cosine similarity
exceeding 0.95 strictly; a semantic hit is served by the first stored
embedding, in the iteration order of the store, that is both TTL-valid and
above the threshold, every earlier entry failing the combined test; and a
pair whose cosine similarity is exactly 0.95 is not a match. -/
theorem C3_semantic_scan :
    (∀ cfg enc enc' now q st, exactHit cfg now st (exact_key q) = true →
        handle_query cfg enc now q st = handle_query cfg enc' now q st)
    ∧ (∀ a b : List ℚ, cosSimGT a b = true ↔
        (19 / 20 : ℝ) < (dotQ a b : ℝ) /
          (Real.sqrt ((normSq a : ℚ) : ℝ) * Real.sqrt ((normSq b : ℚ) : ℝ)))
    ∧ (∀ cfg enc now q st, exactHit cfg now st (exact_key q) = false →
        (handle_query cfg enc now q st).1.cached = true →
        ∃ i : Nat, ∃ emb : List ℚ,
          st.cache_embeddings[i]? =
            some ((handle_query cfg enc now q st).1.cacheKey, emb) ∧
          is_cache_valid cfg now st.cache_timestamps
            (handle_query cfg enc now q st).1.cacheKey = true ∧
          cosSimGT (enc (normalize q)) emb = true ∧
          ∀ j : Nat, j < i → ∀ p : Key × List ℚ, st.cache_embeddings[j]? = some p →
            (is_cache_valid cfg now st.cache_timestamps p.1 &&
              cosSimGT (enc (normalize q)) p.2) = false)
    ∧ (∀ a b : List ℚ, 400 * dotQ a b ^ 2 = 361 * (normSq a * normSq b) →
        cosSimGT a b = false) := by
  refine ⟨?_, fun a b => cosSimGT_iff_real a b, ?_, ?_⟩
  · intro cfg enc enc' now q st h
    simp [handle_query, h]
  · intro cfg enc now q st hexact hc
    cases hf : st.cache_embeddings.find?
        (fun p => is_cache_valid cfg now st.cache_timestamps p.1 &&
          cosSimGT (enc (normalize q)) p.2) with
    | none =>
      have : (handle_query cfg enc now q st).1.cached = false := by
        simp [handle_query, hexact, hf]
      rw [this] at hc
      exact absurd hc (by simp)
    | some p =>
      have hres : (handle_query cfg enc now q st).1 =
          { answer := (lookupK p.1 st.cache).getD [], cached := true,
            cacheKey := p.1 } := by
        simp [handle_query, hexact, hf]
      obtain ⟨i, h1, h2, h3⟩ := find?_first _ _ _ hf
      simp only [Bool.and_eq_true] at h2
      refine ⟨i, p.2, ?_, ?_, ?_, ?_⟩
      · rw [hres]
        simpa using h1
      · rw [hres]
        exact h2.1
      · exact h2.2
      · intro j hj y hy
        exact h3 j hj y hy
  · intro a b h
    have e : (19 / 20 : ℚ) ^ 2 = 361 / 400 := by norm_num
    have hle : ¬ ((19 / 20 : ℚ) ^ 2 * (normSq a * normSq b) < dotQ a b ^ 2) := by
      rw [e]
      intro hlt
      linarith [h, hlt]
    simp [cosSimGT, hle]

/-- Witness for C3: the query vector (20,0,0,0,0) and the stored vector
(19,6,1,1,1) have squared norms 400 and 400 and dot product 380, so their
cosine similarity is exactly 380/400 = 0.95, and the scan does not accept
the pair. -/
theorem C3_semantic_scan_witness :
    cosSimGT [20, 0, 0, 0, 0] [19, 6, 1, 1, 1] = false :=
  C3_semantic_scan.2.2.2 [20, 0, 0, 0, 0] [19, 6, 1, 1, 1]
    (by norm_num [dotQ, normSq])

/-- C6: a zero-norm vector on either side makes the similarity test reject
the pair rather than fail, and a request whose query embedding has zero
norm can never be served from the semantic path: after an exact miss it
always completes as a cache miss. -/
theorem C6_zero_norm_no_match :
    (∀ a b : List ℚ, normSq a = 0 ∨ normSq b = 0 → cosSimGT a b = false)
    ∧ (∀ cfg enc now q st, exactHit cfg now st (exact_key q) = false →
        normSq (enc (normalize q)) = 0 →
        (handle_query cfg enc now q st).1.cached = false) := by
  constructor
  · rintro a b (h | h) <;> simp [cosSimGT, h]
  · intro cfg enc now q st hexact hz
    have hf : st.cache_embeddings.find?
        (fun p => is_cache_valid cfg now st.cache_timestamps p.1 &&
          cosSimGT (enc (normalize q)) p.2) = none := by
      rw [List.find?_eq_none]
      intro p hp
      simp [cosSimGT, hz]
    simp [handle_query, hexact, hf]

/-- Witness for C6: with the zero-vector embedder, a first request on the
empty cache is a miss. -/
theorem C6_zero_norm_no_match_witness :
    (handle_query defaultConfig zeroEmbed 0 [97] initState).1.cached = false :=
  C6_zero_norm_no_match.2 defaultConfig zeroEmbed 0 [97] initState
    (by simp [exactHit, initState, lookupK]) (by simp [zeroEmbed, normSq, dotQ])

/-! ## Capacity bound -/

lemma evictLoop_length_le (n : Nat) (c : List (Key × List Nat))
    (e : List (Key × List ℚ)) (t : List (Key × ℚ)) :
    (evictLoop n c e t).1.length ≤ n := by
  induction c generalizing e t with
  | nil => simp [evictLoop]
  | cons p c ih =>
    simp only [evictLoop]
    split
    · next h => simpa using h
    · exact ih _ _

/-- C2: if the entry store is within the capacity bound before a request,
it is within the bound after the request completes, whichever path the
request takes; on the miss path the eviction loop restores the bound
unconditionally. -/
theorem C2_capacity_invariant (cfg : Config) (enc : List Nat → List ℚ) (now : ℚ)
    (q : List Nat) (st : SState) (h : st.cache.length ≤ cfg.CACHE_SIZE) :
    (handle_query cfg enc now q st).2.cache.length ≤ cfg.CACHE_SIZE := by
  simp only [handle_query]
  split
  · simpa using h
  · split
    · simpa using h
    · simpa using evictLoop_length_le cfg.CACHE_SIZE _ _ _

/-- Witness for C2: with capacity one, inserting into the empty store stays
within the bound. -/
theorem C2_capacity_invariant_witness :
    (handle_query cfgOne zeroEmbed 0 [97] initState).2.cache.length ≤
      cfgOne.CACHE_SIZE :=
  C2_capacity_invariant cfgOne zeroEmbed 0 [97] initState (by decide)

/-- C7: a request with a missing or empty query text returns the empty
uncached answer and leaves the whole state, dicts and counters alike,
untouched. -/
theorem C7_empty_query_noop (cfg : Config) (enc : List Nat → List ℚ) (now : ℚ)
    (q : Option (List Nat)) (st : SState) (h : q = none ∨ q = some []) :
    root cfg enc now q st =
      ({ answer := [], cached := false, cacheKey := probeKey }, st) := by
  rcases h with rfl | rfl <;> simp [root]

/-- Witness for C7 at a missing query on the start state. -/
theorem C7_empty_query_noop_witness :
    root defaultConfig zeroEmbed 0 none initState =
      ({ answer := [], cached := false, cacheKey := probeKey }, initState) :=
  C7_empty_query_noop defaultConfig zeroEmbed 0 none initState (Or.inl rfl)

/-- C10: a non-empty-query request goes through handle_query; every such
request increments total_requests by one and exactly one of hits or misses,
adding AVG_TOKENS to total_tokens exactly in the miss case; consequently
the invariants total_requests = hits + misses and
total_tokens = misses * AVG_TOKENS are preserved. -/
theorem C10_stats_accounting (cfg : Config) (enc : List Nat → List ℚ) (now : ℚ)
    (q : List Nat) (st : SState) :
    (q ≠ [] → root cfg enc now (some q) st = handle_query cfg enc now q st)
    ∧ (handle_query cfg enc now q st).2.stats.total_requests
        = st.stats.total_requests + 1
    ∧ (((handle_query cfg enc now q st).2.stats.hits = st.stats.hits + 1
          ∧ (handle_query cfg enc now q st).2.stats.misses = st.stats.misses
          ∧ (handle_query cfg enc now q st).2.stats.total_tokens
              = st.stats.total_tokens)
        ∨ ((handle_query cfg enc now q st).2.stats.misses = st.stats.misses + 1
          ∧ (handle_query cfg enc now q st).2.stats.hits = st.stats.hits
          ∧ (handle_query cfg enc now q st).2.stats.total_tokens
              = st.stats.total_tokens + cfg.AVG_TOKENS))
    ∧ (st.stats.total_requests = st.stats.hits + st.stats.misses →
        st.stats.total_tokens = st.stats.misses * cfg.AVG_TOKENS →
        (handle_query cfg enc now q st).2.stats.total_requests
            = (handle_query cfg enc now q st).2.stats.hits
              + (handle_query cfg enc now q st).2.stats.misses
          ∧ (handle_query cfg enc now q st).2.stats.total_tokens
              = (handle_query cfg enc now q st).2.stats.misses * cfg.AVG_TOKENS) := by
  have hst : (handle_query cfg enc now q st).2.stats =
      ⟨st.stats.total_requests + 1, st.stats.hits + 1, st.stats.misses,
        st.stats.total_tokens⟩
      ∨ (handle_query cfg enc now q st).2.stats =
      ⟨st.stats.total_requests + 1, st.stats.hits, st.stats.misses + 1,
        st.stats.total_tokens + cfg.AVG_TOKENS⟩ := by
    simp only [handle_query]
    split
    · left; rfl
    · split
      · left; rfl
      · right; rfl
  refine ⟨fun hq => by simp [root, hq], ?_, ?_, ?_⟩
  · rcases hst with h | h <;> rw [h]
  · rcases hst with h | h
    · left; rw [h]; exact ⟨rfl, rfl, rfl⟩
    · right; rw [h]; exact ⟨rfl, rfl, rfl⟩
  · intro h1 h2
    rcases hst with h | h <;> rw [h]
    · exact ⟨by simp; omega, h2⟩
    · refine ⟨by simp; omega, ?_⟩
      show st.stats.total_tokens + cfg.AVG_TOKENS
        = (st.stats.misses + 1) * cfg.AVG_TOKENS
      rw [Nat.succ_mul, h2]

/-- Witness for C10 at the first request on the start state. -/
theorem C10_stats_accounting_witness :
    (handle_query defaultConfig zeroEmbed 0 [97] initState).2.stats.total_requests
      = (handle_query defaultConfig zeroEmbed 0 [97] initState).2.stats.hits
        + (handle_query defaultConfig zeroEmbed 0 [97] initState).2.stats.misses :=
  ((C10_stats_accounting defaultConfig zeroEmbed 0 [97] initState).2.2.2
    (by decide) (by decide)).1

/-! ## Time-to-live -/

/-- A first request on the empty store is a miss that installs the entry at
the timestamp of the request. -/
lemma insert_into_empty (cfg : Config) (enc : List Nat → List ℚ) (T : ℚ)
    (q : List Nat) (hcap : 1 ≤ cfg.CACHE_SIZE) :
    handle_query cfg enc T q initState =
      ({ answer := answerText cfg q, cached := false, cacheKey := exact_key q },
       { cache := [(exact_key q, answerText cfg q)],
         cache_embeddings := [(exact_key q, enc (normalize q))],
         cache_timestamps := [(exact_key q, T)],
         stats := ⟨1, 0, 1, cfg.AVG_TOKENS⟩ }) := by
  simp [handle_query, exactHit, is_cache_valid, initState, lookupK, odSet,
    evictLoop, hcap]

/-- C4: an entry inserted at time T serves an exact hit at every lookup
time t with t - T strictly below TTL_SECONDS, returning the stored answer
and counting a hit; at every lookup time with t - T at or beyond
TTL_SECONDS the same request completes as a miss, with no hit counted. -/
theorem C4_ttl_boundary (cfg : Config) (enc : List Nat → List ℚ) (T t : ℚ)
    (q : List Nat) (hcap : 1 ≤ cfg.CACHE_SIZE) :
    (t - T < cfg.TTL_SECONDS →
        (handle_query cfg enc t q (handle_query cfg enc T q initState).2).1.cached
            = true
        ∧ (handle_query cfg enc t q (handle_query cfg enc T q initState).2).1.answer
            = answerText cfg q
        ∧ (handle_query cfg enc t q
            (handle_query cfg enc T q initState).2).2.stats.hits = 1
        ∧ (handle_query cfg enc t q
            (handle_query cfg enc T q initState).2).2.stats.misses = 1)
    ∧ (cfg.TTL_SECONDS ≤ t - T →
        (handle_query cfg enc t q (handle_query cfg enc T q initState).2).1.cached
            = false
        ∧ (handle_query cfg enc t q
            (handle_query cfg enc T q initState).2).2.stats.hits = 0
        ∧ (handle_query cfg enc t q
            (handle_query cfg enc T q initState).2).2.stats.misses = 2) := by
  rw [insert_into_empty cfg enc T q hcap]
  constructor
  · intro h
    have hv : is_cache_valid cfg t [(exact_key q, T)] (exact_key q) = true := by
      simp [is_cache_valid, lookupK, h]
    simp [handle_query, exactHit, lookupK, hv]
  · intro h
    have hv : is_cache_valid cfg t [(exact_key q, T)] (exact_key q) = false := by
      simp [is_cache_valid, lookupK, not_lt]
      linarith
    simp [handle_query, exactHit, lookupK, hv, List.find?, odSet, evictLoop, hcap]

/-- Witness for C4: the entry inserted at time 0 is still a hit one second
later under the default 24-hour TTL. -/
theorem C4_ttl_boundary_witness :
    (handle_query defaultConfig zeroEmbed 1 [97]
        (handle_query defaultConfig zeroEmbed 0 [97] initState).2).1.cached = true :=
  ((C4_ttl_boundary defaultConfig zeroEmbed 0 1 [97] (by decide)).1
    (by norm_num [defaultConfig])).1

/-! ## Recency handling of hits -/

/-- C1 (code evaluation at the failing input): with capacity two, after
inserting the queries a and b, a read of a is an exact hit, yet it leaves
the recency order of the store unchanged; the following overflow insertion
of c therefore evicts a, the key that was read last, while b survives.
Under the promote-on-hit contract of the spec, b would have been the
eviction victim and a would have survived. -/
theorem C1_read_does_not_promote :
    fifoRead.1.cached = true
    ∧ fifoRead.2.cache = fifoSt2.cache
    ∧ lookupK (exact_key [97]) fifoSt3.cache = none
    ∧ (lookupK (exact_key [98]) fifoSt3.cache).isSome = true := by
  norm_num [fifoRead, fifoSt1, fifoSt2, fifoSt3, cfgTwo, zeroEmbed, initState,
    handle_query, exactHit, is_cache_valid, lookupK, odSet, eraseK, evictLoop,
    exact_key, normalize, pySplit, pyStrip, joinSp, joinSpAux, splitStep,
    flushSplit, isSpaceB, lowerChar, cosSimGT, dotQ, normSq, List.find?]

/-! ## Analytics reporting -/

lemma analytics_hitRate (cfg : Config) (st : SState) :
    (analytics cfg st).hitRate =
      roundTo 3 ((st.stats.hits : ℚ) / max 1 (st.stats.total_requests : ℚ)) := rfl

lemma analytics_costSavings (cfg : Config) (st : SState) :
    (analytics cfg st).costSavings =
      roundTo 2 ((st.stats.hits : ℚ) * (cfg.AVG_TOKENS : ℚ) * cfg.MODEL_COST) := rfl

lemma roundHalfEven_300 : roundHalfEven (300 : ℚ) = 300 := by
  have hf : floorQ (300 : ℚ) = 300 := by
    unfold floorQ
    rw [Int.floor_eq_iff]
    norm_num
  unfold roundHalfEven
  rw [hf]
  norm_num

lemma roundHalfEven_nine_tenths : roundHalfEven (9 / 10 : ℚ) = 1 := by
  have hf : floorQ (9 / 10 : ℚ) = 0 := by
    unfold floorQ
    rw [Int.floor_eq_iff]
    norm_num
  unfold roundHalfEven
  rw [hf]
  norm_num

/-- Evaluation of the analytics snapshot at the stats of spec section 8:
hits 3 of 10 requests under the default constants. -/
lemma analytics_statsTen_eval :
    (analytics defaultConfig statsTen).hitRate = 3 / 10
    ∧ (analytics defaultConfig statsTen).costSavings = 1 / 100 := by
  constructor
  · rw [analytics_hitRate]
    have harg : ((statsTen.stats.hits : ℚ) /
        max 1 (statsTen.stats.total_requests : ℚ)) = 3 / 10 := by
      show ((3 : ℕ) : ℚ) / max 1 ((10 : ℕ) : ℚ) = 3 / 10
      rw [show max (1 : ℚ) ((10 : ℕ) : ℚ) = 10 by norm_num]
      norm_num
    rw [harg]
    unfold roundTo
    rw [show (3 / 10 : ℚ) * 10 ^ (3 : ℕ) = 300 by norm_num, roundHalfEven_300]
    norm_num
  · rw [analytics_costSavings]
    have harg : ((statsTen.stats.hits : ℚ) * (defaultConfig.AVG_TOKENS : ℚ) *
        defaultConfig.MODEL_COST) = 9 / 1000 := by
      show ((3 : ℕ) : ℚ) * ((3000 : ℕ) : ℚ) * (1 / 1000000 : ℚ) = 9 / 1000
      norm_num
    rw [harg]
    unfold roundTo
    rw [show (9 / 1000 : ℚ) * 10 ^ (2 : ℕ) = 9 / 10 by norm_num,
      roundHalfEven_nine_tenths]
    norm_num

/-- C5 (counterexample): at hits 3, total 10 under the default constants
the reported costSavings is not 0.009: the reporting contract of line 166
rounds to two decimal places. -/
theorem C5_cost_saved_counterexample :
    (analytics defaultConfig statsTen).costSavings ≠ 9 / 1000 := by
  rw [analytics_statsTen_eval.2]
  norm_num

/-- C5 (amended): the snapshot computes hit_rate = hits / max(1, total) and
cost_saved = hits * AVG_TOKENS * MODEL_COST; at hits 3, total 10 the
reported hit rate is 0.3 and the computed cost_saved is 0.009, but the
report rounds costSavings to two decimals, so the reported value is 0.01. -/
theorem C5_reporting_rounded :
    (analytics defaultConfig statsTen).hitRate = 3 / 10
    ∧ (statsTen.stats.hits : ℚ) * (defaultConfig.AVG_TOKENS : ℚ) *
        defaultConfig.MODEL_COST = 9 / 1000
    ∧ (analytics defaultConfig statsTen).costSavings = 1 / 100 := by
  refine ⟨analytics_statsTen_eval.1, ?_, analytics_statsTen_eval.2⟩
  show ((3 : ℕ) : ℚ) * ((3000 : ℕ) : ℚ) * (1 / 1000000 : ℚ) = 9 / 1000
  norm_num

/-! ## Lock placement -/

/-- C9 (counterexample): the backend call of the miss path sits at position
4 of the handler event trace, and the net lock depth before it is not zero:
the call is performed while the lock of line 95 is held, not outside it. -/
theorem C9_backend_inside_lock :
    missPathEvents[4]? = some LockEvent.backendCall
    ∧ lockDepth (missPathEvents.take 4) ≠ 0 := by decide

/-- C9 (amended): the with-lock block of line 95 covers the entire handler:
the trace acquires once at the start, releases once at the very end, the
backend call runs at lock depth one, and the insertion that follows it runs
under the same single acquisition rather than a re-acquired lock. -/
theorem C9_single_lock_covers_all :
    missPathEvents.head? = some LockEvent.acquire
    ∧ missPathEvents.getLast? = some LockEvent.release
    ∧ missPathEvents.count LockEvent.acquire = 1
    ∧ missPathEvents.count LockEvent.release = 1
    ∧ missPathEvents[4]? = some LockEvent.backendCall
    ∧ lockDepth (missPathEvents.take 4) = 1
    ∧ missPathEvents[6]? = some LockEvent.insertEntry
    ∧ lockDepth (missPathEvents.take 6) = 1 := by decide

end Caching
